import Mathlib

/-!
Verification of the query/extraction engine of the `idig` backup-archive tool.

The development shallowly embeds the Rust sources:
  * `src/domain/value_objects/domain.rs` (`Domain::new`)
  * `src/domain/value_objects/file_id.rs` (`FileId::new`)
  * `src/domain/queries/file_query.rs` (`FileQuery`, `BasicQuery`, `CompositeQuery`)
  * `src/application/search_service.rs` (`SearchParams::build_query`)
  * `src/infrastructure/repositories/file_repository_impl.rs`
    (`apply_basic_query`, `apply_composite_query`, `search`)
  * `src/application/extract_service.rs` (`ExtractService::extract`,
    `extract_single_file`, `ExtractResult`, `ExtractError`)

Rust `String` is embedded as Lean `String`; `str::len()` (UTF-8 byte length)
is embedded as `Idig.utf8Len`; byte-index slicing is embedded as
`Idig.takeBytes`, which fails (models a Rust panic) when the index is out of
bounds or not on a character boundary.  The storage engine (SQL evaluation
and ordering) and the filesystem are external to the repository; they are
modelled from the spec as pure predicate evaluation, sorting, and an
abstract `World` of filesystem capabilities.
-/

namespace Idig

/-- Decidable equality for `Except`, used to evaluate the embedded
fallible operations on concrete inputs. -/
instance {α β : Type} [DecidableEq α] [DecidableEq β] : DecidableEq (Except α β) := fun a b =>
  match a, b with
  | .ok x, .ok y => decidable_of_iff (x = y) (by simp)
  | .ok _, .error _ => isFalse (fun h => Except.noConfusion h)
  | .error _, .ok _ => isFalse (fun h => Except.noConfusion h)
  | .error x, .error y => decidable_of_iff (x = y) (by simp)

/-- UTF-8 byte length of a string; embeds Rust `str::len()`. -/
def utf8Len (s : String) : Nat := (s.data.map Char.utf8Size).sum

/-- Embeds Rust `char::is_ascii_hexdigit` via the code points of
`0`..`9` (48–57), `a`..`f` (97–102) and `A`..`F` (65–70). -/
def isAsciiHexDigit (c : Char) : Bool :=
  (48 ≤ c.toNat && c.toNat ≤ 57) || (97 ≤ c.toNat && c.toNat ≤ 102) ||
    (65 ≤ c.toNat && c.toNat ≤ 70)

/-- ASCII-range lowercasing of one character (maps `A`–`Z`, code points
65–90, to the character 32 code points later).  Embeds the effect of Rust
`str::to_lowercase` on the ASCII strings on which the code applies it. -/
def charToLower (c : Char) : Char :=
  if 65 ≤ c.toNat ∧ c.toNat ≤ 90 then Char.ofNat (c.toNat + 32) else c

/-- Characterwise lowercasing of a string. -/
def strToLower (s : String) : String := ⟨s.data.map charToLower⟩

/-- Tests whether `needle` is an initial segment of `hay`; helper for the
substring test. -/
def firstMatches : List Char → List Char → Bool
  | [], _ => true
  | _ :: _, [] => false
  | a :: as, b :: bs => a == b && firstMatches as bs

/-- Tests whether `needle` occurs contiguously inside the second list;
case-sensitive substring search. -/
def subSearch (needle : List Char) : List Char → Bool
  | [] => needle.isEmpty
  | hay@(_ :: rest) => firstMatches needle hay || subSearch needle rest

/-- Tests whether `pat` is a case-sensitive substring of `hay`. -/
def hasSubstr (hay pat : String) : Bool := subSearch pat.data hay.data

/-- Returns the characters making up the first `n` UTF-8 bytes of `cs`, or
none when `n` overruns the string or falls inside a character.  Embeds the
Rust byte slice of the first `n` bytes, whose failure is a panic. -/
def takeBytes : Nat → List Char → Option (List Char)
  | 0, _ => some []
  | _ + 1, [] => none
  | n + 1, c :: rest =>
    if c.utf8Size ≤ n + 1 then (takeBytes (n + 1 - c.utf8Size) rest).map (c :: ·)
    else none

/-- Embeds `Path::join` for the path shapes the extraction pipeline builds. -/
def pathJoin (a b : String) : String := a ++ "/" ++ b

/-- Value object for an owning-application identifier
(`src/domain/value_objects/domain.rs`). -/
structure Domain where
  val : String
deriving DecidableEq

/-- Embeds `Domain::new`: rejects the empty string and strings whose UTF-8
byte length (Rust `String::len`) exceeds 255. -/
def Domain.new (domain : String) : Except String Domain :=
  if domain.data.isEmpty then .error "Domain cannot be empty"
  else if 255 < utf8Len domain then .error "Domain cannot be longer than 255 characters"
  else .ok ⟨domain⟩

/-- Value object for a content hash identifier
(`src/domain/value_objects/file_id.rs`). -/
structure FileId where
  val : String
deriving DecidableEq

/-- Embeds `FileId::new`: rejects the empty string, strings whose UTF-8 byte
length (Rust `String::len`) is not 40, and strings with a
non-ASCII-hex-digit character; stores the lowercased string. -/
def FileId.new (id : String) : Except String FileId :=
  if id.data.isEmpty then .error "FileId cannot be empty"
  else if utf8Len id ≠ 40 then .error "FileId must be 40 characters long (SHA1 hash)"
  else if !(id.data.all isAsciiHexDigit) then
    .error "FileId must contain only hexadecimal characters"
  else .ok ⟨strToLower id⟩

/-- A file record of the index (`src/domain/entities/file.rs`), with the
value-object wrappers flattened to their underlying data. -/
structure File where
  fileId : String
  domain : String
  relativePath : String
  flags : Nat
  fileMetadata : List Nat
deriving DecidableEq

/-- Basic predicate of the query model (`src/domain/queries/file_query.rs`). -/
inductive BasicQuery
  | domainExact (v : String)
  | domainContains (v : String)
  | pathExact (v : String)
  | pathContains (v : String)
deriving DecidableEq

/-- Composite predicate of the query model. -/
inductive CompositeQuery
  | anyOf (qs : List BasicQuery)
  | allOf (qs : List BasicQuery)
deriving DecidableEq

/-- A query: exactly one basic predicate or one composite predicate. -/
inductive FileQuery
  | basic (q : BasicQuery)
  | composite (q : CompositeQuery)
deriving DecidableEq

/-- Flat filter input of the query builder
(`src/application/search_service.rs`, `SearchParams`). -/
structure SearchParams where
  domainExact : Option String
  domainContains : Option String
  pathExact : Option String
  pathContains : Option String
  useOr : Bool
deriving DecidableEq

/-- The ordered list of conditions `SearchParams::build_query` pushes:
domain-exact, then domain-contains, then path-exact, then path-contains,
each only when present. -/
def SearchParams.conditions (p : SearchParams) : List BasicQuery :=
  (match p.domainExact with | some v => [BasicQuery.domainExact v] | none => []) ++
  (match p.domainContains with | some v => [BasicQuery.domainContains v] | none => []) ++
  (match p.pathExact with | some v => [BasicQuery.pathExact v] | none => []) ++
  (match p.pathContains with | some v => [BasicQuery.pathContains v] | none => [])

/-- Embeds `SearchParams::build_query`. -/
def SearchParams.build_query (p : SearchParams) : Except String FileQuery :=
  let conditions := p.conditions
  if conditions.isEmpty then
    .error "At least one search condition must be specified"
  else if conditions.length == 1 then
    match conditions with
    | c :: _ => .ok (.basic c)
    | [] => .error "Internal error: expected exactly one condition"
  else if p.useOr then
    .ok (.composite (.anyOf conditions))
  else
    .ok (.composite (.allOf conditions))

example : (SearchParams.mk (some "a") none (some "p") none true).build_query =
    .ok (.composite (.anyOf [.domainExact "a", .pathExact "p"])) := by decide

example : (SearchParams.mk none (some "") none none false).build_query =
    .ok (.basic (.domainContains "")) := by decide

/-- Evaluation of a basic predicate on one record.  The field/mode mapping
follows `FileRepositoryImpl::apply_basic_query` (`Domain.eq`,
`Domain.contains`, `RelativePath.eq`, `RelativePath.contains`).
Modelled from the spec: the storage engine that evaluates the resulting
filters is external to the repository; per §4.3 `eq` is case-sensitive
exact string equality and `contains` is a case-sensitive substring test. -/
def basicMatches (q : BasicQuery) (f : File) : Bool :=
  match q with
  | .domainExact v => f.domain == v
  | .domainContains v => hasSubstr f.domain v
  | .pathExact v => f.relativePath == v
  | .pathContains v => hasSubstr f.relativePath v

/-- Evaluation of a whole query on one record, following
`FileRepositoryImpl::apply_basic_query` / `apply_composite_query`: an empty
`anyOf`/`allOf` list applies no filter at all (the query is returned
unchanged), a non-empty `anyOf` list OR-chains the conditions, a non-empty
`allOf` list stacks `filter` calls (AND). -/
def matchesQuery (q : FileQuery) (f : File) : Bool :=
  match q with
  | .basic b => basicMatches b f
  | .composite (.anyOf qs) => if qs.isEmpty then true else qs.any (fun b => basicMatches b f)
  | .composite (.allOf qs) => if qs.isEmpty then true else qs.all (fun b => basicMatches b f)

/-- The comparison realised by `ORDER BY domain ASC, relative_path ASC`:
domain strictly first, relative path breaking ties, both under the
lexicographic string order. -/
def fileLE (a b : File) : Bool :=
  decide (a.domain < b.domain) ||
    (decide (a.domain = b.domain) && decide (a.relativePath ≤ b.relativePath))

/-- Embeds `FileRepositoryImpl::search` for a fixed index contents.
Modelled from the spec: the SQL engine itself is external to the
repository; per §4.3 it keeps exactly the records matching the filters and
returns them ordered ascending by `(domain, relativePath)`. -/
def FileRepositoryImpl.search (index : List File) (q : FileQuery) : List File :=
  (index.filter (matchesQuery q)).mergeSort fileLE

/-- Per-file extraction error entry
(`src/application/extract_service.rs`, `ExtractError`). -/
structure ExtractError where
  file_id : String
  relative_path : String
  error : String
deriving DecidableEq

/-- Aggregated extraction outcome
(`src/application/extract_service.rs`, `ExtractResult`). -/
structure ExtractResult where
  extracted_count : Nat
  skipped_count : Nat
  errors : List ExtractError
deriving DecidableEq

/-- Modelled from the spec: the abstract capabilities the pipeline
consumes (§6) — the index-search capability, and the filesystem viewed
through the only operations the code performs: existence test of a source
blob, recursive directory creation (keyed here by the path whose parents
are created), and a byte copy.  The two boolean fields tell whether the
corresponding operation succeeds. -/
structure World where
  repoSearch : FileQuery → Except String (List File)
  blobExists : String → Bool
  mkdirOk : String → Bool
  copyOk : String → String → Bool

/-- The source blob location `backupDir/XX/fileId` where `XX` is the
two-character fan-out of the content id (spec §4.4 step 3a). -/
def sourcePathOf (backupDir : String) (f : File) : String :=
  pathJoin (pathJoin backupDir ⟨f.fileId.data.take 2⟩) f.fileId

/-- The destination location `outputDir/relativePath` (spec §4.4 step 3c). -/
def destPathOf (outputDir : String) (f : File) : String :=
  pathJoin outputDir f.relativePath

/-- Embeds `ExtractService::extract_single_file`.  `none` models a panic of
the byte slice `&file_id_str[0..2]`; `some (.ok true)` an extracted file,
`some (.ok false)` a skipped file, `some (.error _)` a per-file failure. -/
def extract_single_file (w : World) (f : File) (backupDir outputDir : String) :
    Option (Except String Bool) :=
  match takeBytes 2 f.fileId.data with
  | none => none
  | some pre2 =>
    let sourcePath := pathJoin (pathJoin backupDir ⟨pre2⟩) f.fileId
    if !(w.blobExists sourcePath) then some (.ok false)
    else
      let destPath := pathJoin outputDir f.relativePath
      if !(w.mkdirOk destPath) then
        some (.error ("Failed to create parent directory for " ++ destPath))
      else if !(w.copyOk sourcePath destPath) then
        some (.error ("Failed to copy file from " ++ sourcePath ++ " to " ++ destPath))
      else some (.ok true)

/-- The per-file loop of `ExtractService::extract`: successes bump the
extracted counter, skips the skipped counter, per-file failures append an
error entry, and processing always continues with the next file.  `none`
propagates a panic. -/
def processFiles (w : World) (backupDir outputDir : String) :
    List File → ExtractResult → Option ExtractResult
  | [], r => some r
  | f :: rest, r =>
    match extract_single_file w f backupDir outputDir with
    | none => none
    | some (.ok true) =>
      processFiles w backupDir outputDir rest
        { r with extracted_count := r.extracted_count + 1 }
    | some (.ok false) =>
      processFiles w backupDir outputDir rest
        { r with skipped_count := r.skipped_count + 1 }
    | some (.error e) =>
      processFiles w backupDir outputDir rest
        { r with errors := r.errors ++ [⟨f.fileId, f.relativePath, e⟩] }

/-- Embeds `ExtractService::extract`: build the query, search, return a
zero outcome on an empty match set, create the output root (fatal on
failure), then run the per-file loop. -/
def ExtractService.extract (w : World) (params : SearchParams)
    (backupDir outputDir : String) : Option (Except String ExtractResult) :=
  match params.build_query with
  | .error e => some (.error e)
  | .ok query =>
    match w.repoSearch query with
    | .error e => some (.error ("Failed to search for files: " ++ e))
    | .ok files =>
      if files.isEmpty then some (.ok ⟨0, 0, []⟩)
      else if !(w.mkdirOk outputDir) then
        some (.error ("Failed to create output directory: " ++ outputDir))
      else (processFiles w backupDir outputDir files ⟨0, 0, []⟩).map .ok

/-- A content id the pipeline can slice: at least two characters, all of
one UTF-8 byte.  Every id accepted by `FileId.new` satisfies this
(theorem `fileId_fanout_safe`). -/
def ValidId (s : String) : Prop :=
  2 ≤ s.data.length ∧ ∀ c ∈ s.data, c.utf8Size = 1

instance (s : String) : Decidable (ValidId s) :=
  inferInstanceAs (Decidable (2 ≤ s.data.length ∧ ∀ c ∈ s.data, c.utf8Size = 1))

/-- Classifier for extracted outcomes of `extract_single_file`. -/
def isExtracted : Option (Except String Bool) → Bool
  | some (.ok true) => true
  | _ => false

/-- Classifier for skipped outcomes of `extract_single_file`. -/
def isSkipped : Option (Except String Bool) → Bool
  | some (.ok false) => true
  | _ => false

/-- The error-list entry an outcome of `extract_single_file` contributes. -/
def errEntry (f : File) : Option (Except String Bool) → Option ExtractError
  | some (.error e) => some ⟨f.fileId, f.relativePath, e⟩
  | _ => none

theorem utf8Size_eq_one_of_toNat_lt {c : Char} (h : c.toNat < 128) : c.utf8Size = 1 := by
  unfold Char.utf8Size
  have hle : c.val ≤ UInt32.ofNatCore 127 Char.utf8Size.proof_1 := by
    rw [UInt32.le_def, BitVec.le_def]
    exact Nat.le_of_lt_succ h
  simp only [hle, if_pos]

theorem char_toNat_ofNat {n : Nat} (h : n < 55296) : (Char.ofNat n).toNat = n := by
  have hv : n.isValidChar := Or.inl h
  rw [Char.ofNat, dif_pos hv]
  simp [Char.ofNatAux, Char.toNat, UInt32.toNat, UInt32.ofNatCore]

theorem toNat_lt_of_isAsciiHexDigit {c : Char} (h : isAsciiHexDigit c = true) :
    c.toNat < 128 := by
  unfold isAsciiHexDigit at h
  simp only [Bool.or_eq_true, Bool.and_eq_true, decide_eq_true_iff] at h
  omega

theorem charToLower_toNat_lt {c : Char} (h : c.toNat < 128) :
    (charToLower c).toNat < 128 := by
  unfold charToLower
  split
  · rename_i h'
    rw [char_toNat_ofNat (by omega)]
    omega
  · exact h

theorem sum_map_utf8_of_ones {l : List Char} (h : ∀ c ∈ l, c.utf8Size = 1) :
    (l.map Char.utf8Size).sum = l.length := by
  induction l with
  | nil => simp
  | cons c t ih =>
    simp only [List.map_cons, List.sum_cons, List.length_cons,
      h c (List.mem_cons_self c t), ih (fun x hx => h x (List.mem_cons_of_mem c hx))]
    omega

theorem str_eq_empty_iff (s : String) : s = "" ↔ s.data = [] := by
  rw [String.ext_iff]

theorem firstMatches_iff (n h : List Char) : firstMatches n h = true ↔ n <+: h := by
  induction n generalizing h with
  | nil => simp [firstMatches, List.nil_prefix]
  | cons a as ih =>
    cases h with
    | nil => simp [firstMatches, List.prefix_nil]
    | cons b bs => simp [firstMatches, List.cons_prefix_cons, ih]

theorem subSearch_iff (n h : List Char) : subSearch n h = true ↔ n <:+: h := by
  induction h with
  | nil => simp [subSearch, List.infix_nil, List.isEmpty_iff]
  | cons b bs ih => simp [subSearch, firstMatches_iff, ih, List.infix_cons_iff]

theorem hasSubstr_iff (hay pat : String) :
    hasSubstr hay pat = true ↔ pat.data <:+: hay.data :=
  subSearch_iff pat.data hay.data

theorem takeBytes_two_of_validId {s : String} (h : ValidId s) :
    takeBytes 2 s.data = some (s.data.take 2) := by
  obtain ⟨hlen, hall⟩ := h
  match hd : s.data with
  | [] => rw [hd] at hlen; simp at hlen
  | [c] => rw [hd] at hlen; simp at hlen
  | c1 :: c2 :: r =>
    have h1 : c1.utf8Size = 1 := hall c1 (by rw [hd]; exact List.mem_cons_self ..)
    have h2 : c2.utf8Size = 1 := hall c2 (by rw [hd]; simp)
    simp [takeBytes, h1, h2]

/-- C1: `build_query` fails with the "no search condition" validation error
iff all four optional filters are absent (an empty string being a present
value); a single collected condition yields a bare `basic` query; two or
more yield `anyOf` under the combine flag and `allOf` otherwise, over the
conditions collected in the fixed order domain-exact, domain-contains,
path-exact, path-contains. -/
theorem build_query_characterization (p : SearchParams) :
    (p.conditions = [] ↔ p.domainExact = none ∧ p.domainContains = none ∧
       p.pathExact = none ∧ p.pathContains = none) ∧
    (p.build_query = .error "At least one search condition must be specified" ↔
       p.conditions = []) ∧
    (∀ c, p.conditions = [c] → p.build_query = .ok (.basic c)) ∧
    (2 ≤ p.conditions.length →
       p.build_query = .ok (.composite
         (if p.useOr then .anyOf p.conditions else .allOf p.conditions))) ∧
    (∀ a b c d, p.domainExact = some a → p.domainContains = some b →
       p.pathExact = some c → p.pathContains = some d →
       p.conditions = [.domainExact a, .domainContains b, .pathExact c, .pathContains d]) := by
  obtain ⟨de, dc, pe, pc, uo⟩ := p
  cases de <;> cases dc <;> cases pe <;> cases pc <;> cases uo <;>
    simp [SearchParams.conditions, SearchParams.build_query] <;> tauto

/-- Witness for `build_query_characterization` at a fully-populated input. -/
theorem build_query_characterization_use :
    (SearchParams.mk (some "a") (some "b") (some "c") (some "d") true).build_query =
      .ok (.composite (.anyOf [.domainExact "a", .domainContains "b",
        .pathExact "c", .pathContains "d"])) := by
  have h := build_query_characterization
    (SearchParams.mk (some "a") (some "b") (some "c") (some "d") true)
  have hc := h.2.2.2.2 "a" "b" "c" "d" rfl rfl rfl rfl
  have h2 := h.2.2.2.1 (by rw [hc]; decide)
  rw [hc] at h2
  simpa using h2

/-- C2: a basic `equals` predicate holds iff the corresponding field is
exactly (case-sensitively) equal to the predicate's string, and a basic
`contains` predicate holds iff the predicate's string occurs contiguously
(case-sensitively) inside the field — the domain field for domain
predicates, the relative path field for path predicates. -/
theorem basic_predicate_semantics (f : File) (v : String) :
    (basicMatches (.domainExact v) f = true ↔ f.domain = v) ∧
    (basicMatches (.domainContains v) f = true ↔ v.data <:+: f.domain.data) ∧
    (basicMatches (.pathExact v) f = true ↔ f.relativePath = v) ∧
    (basicMatches (.pathContains v) f = true ↔ v.data <:+: f.relativePath.data) := by
  refine ⟨?_, ?_, ?_, ?_⟩ <;> simp [basicMatches, hasSubstr_iff]

set_option maxRecDepth 8192 in
/-- Counterexample to C9 as stated: a string of 128 two-byte characters is
non-empty and well under 255 characters, yet `Domain.new` rejects it,
because the implementation limits the UTF-8 byte length (`String::len`),
not the character count. -/
theorem domain_new_rejects_short_multibyte :
    Domain.new ⟨List.replicate 128 'α'⟩ =
      .error "Domain cannot be longer than 255 characters" ∧
    (⟨List.replicate 128 'α'⟩ : String).length ≤ 255 ∧
    (⟨List.replicate 128 'α'⟩ : String) ≠ "" := by
  refine ⟨by decide, by decide, by decide⟩

/-- C9 (amended): constructing a `Domain` from `s` succeeds iff `s` is
non-empty and its UTF-8 byte length is at most 255; on success the stored
value is `s` unchanged. -/
theorem domain_new_ok_iff (s : String) (d : Domain) :
    Domain.new s = .ok d ↔ (d = ⟨s⟩ ∧ s ≠ "" ∧ utf8Len s ≤ 255) := by
  unfold Domain.new
  by_cases h1 : s.data.isEmpty
  · rw [List.isEmpty_iff] at h1
    simp [h1, str_eq_empty_iff]
  · have h1' : ¬s.data.isEmpty = true := h1
    by_cases h2 : 255 < utf8Len s
    · simp only [h1', Bool.false_eq_true, if_false, h2, if_true]
      constructor
      · intro h; exact absurd h (by simp)
      · rintro ⟨-, -, h⟩; omega
    · simp only [h1', Bool.false_eq_true, if_false, h2, if_false]
      rw [List.isEmpty_iff] at h1
      constructor
      · intro h
        refine ⟨by simpa [eq_comm] using h, ?_, by omega⟩
        simpa [str_eq_empty_iff] using h1
      · rintro ⟨rfl, -, -⟩; rfl

theorem fileLE_trans (a b c : File) (hab : fileLE a b = true) (hbc : fileLE b c = true) :
    fileLE a c = true := by
  simp only [fileLE, Bool.or_eq_true, Bool.and_eq_true, decide_eq_true_iff] at hab hbc ⊢
  rcases hab with h1 | ⟨h1e, h1l⟩ <;> rcases hbc with h2 | ⟨h2e, h2l⟩
  · exact Or.inl (lt_trans h1 h2)
  · exact Or.inl (h2e ▸ h1)
  · exact Or.inl (h1e ▸ h2)
  · exact Or.inr ⟨h1e.trans h2e, le_trans h1l h2l⟩

theorem fileLE_total (a b : File) : (fileLE a b || fileLE b a) = true := by
  simp only [fileLE, Bool.or_eq_true, Bool.and_eq_true, decide_eq_true_iff]
  rcases lt_trichotomy a.domain b.domain with h | h | h
  · exact Or.inl (Or.inl h)
  · rcases le_total a.relativePath b.relativePath with h' | h'
    · exact Or.inl (Or.inr ⟨h, h'⟩)
    · exact Or.inr (Or.inr ⟨h.symm, h'⟩)
  · exact Or.inr (Or.inl h)

/-- C3: searching with the empty-conjunction composite `allOf []` returns
every record of the index, and so does the empty-disjunction composite
`anyOf []` — both apply no filter at all. -/
theorem empty_composite_matches_all (index : List File) :
    (FileRepositoryImpl.search index (.composite (.allOf []))).Perm index ∧
    (FileRepositoryImpl.search index (.composite (.anyOf []))).Perm index := by
  constructor
  · have h1 : List.filter (matchesQuery (.composite (.allOf []))) index = index :=
      List.filter_eq_self.mpr (fun a _ => rfl)
    rw [FileRepositoryImpl.search, h1]
    exact List.mergeSort_perm index fileLE
  · have h1 : List.filter (matchesQuery (.composite (.anyOf []))) index = index :=
      List.filter_eq_self.mpr (fun a _ => rfl)
    rw [FileRepositoryImpl.search, h1]
    exact List.mergeSort_perm index fileLE

/-- C4: for a fixed index and any query, the search result is sorted
ascending by domain and then by relative path under the lexicographic
string order, and repeating the same search yields the identical list. -/
theorem search_sorted_and_deterministic (index : List File) (q : FileQuery) :
    List.Pairwise (fun a b : File =>
        a.domain < b.domain ∨ (a.domain = b.domain ∧ a.relativePath ≤ b.relativePath))
      (FileRepositoryImpl.search index q) ∧
    FileRepositoryImpl.search index q = FileRepositoryImpl.search index q := by
  refine ⟨?_, rfl⟩
  have hs := List.sorted_mergeSort fileLE_trans fileLE_total
    (index.filter (matchesQuery q))
  refine hs.imp ?_
  intro a b hab
  simpa only [fileLE, Bool.or_eq_true, Bool.and_eq_true, decide_eq_true_iff] using hab

theorem extract_single_eq_of_validId (w : World) (f : File) (b o : String)
    (h : ValidId f.fileId) :
    extract_single_file w f b o =
      (if !(w.blobExists (sourcePathOf b f)) then some (.ok false)
       else if !(w.mkdirOk (destPathOf o f)) then
         some (.error ("Failed to create parent directory for " ++ destPathOf o f))
       else if !(w.copyOk (sourcePathOf b f) (destPathOf o f)) then
         some (.error ("Failed to copy file from " ++ sourcePathOf b f ++ " to " ++
           destPathOf o f))
       else some (.ok true)) := by
  unfold extract_single_file
  rw [takeBytes_two_of_validId h]
  rfl

/-- Witness for `domain_new_ok_iff` at a concrete accepted input. -/
theorem domain_new_ok_iff_use : Domain.new "abc" = .ok ⟨"abc"⟩ :=
  (domain_new_ok_iff "abc" ⟨"abc"⟩).mpr ⟨rfl, by decide, by decide⟩

/-- C10: every id accepted by `FileId.new` (exactly 40 bytes, all ASCII hex
digits, stored lowercased) can be sliced at byte 2: the slice is in bounds,
on a character boundary, and equal to the first two characters, so
`extract_single_file` never panics on a record carrying such an id. -/
theorem fileId_fanout_safe (s : String) (fid : FileId) (h : FileId.new s = .ok fid) :
    ValidId fid.val ∧
    takeBytes 2 fid.val.data = some (fid.val.data.take 2) ∧
    ∀ (w : World) (dom rp : String) (fl : Nat) (md : List Nat) (b o : String),
      extract_single_file w ⟨fid.val, dom, rp, fl, md⟩ b o ≠ none := by
  rw [FileId.new] at h
  by_cases h1 : s.data.isEmpty = true
  · rw [if_pos h1] at h; exact absurd h (by simp)
  rw [if_neg h1] at h
  by_cases h2 : utf8Len s ≠ 40
  · rw [if_pos h2] at h; exact absurd h (by simp)
  rw [if_neg h2] at h
  by_cases h3 : (!s.data.all isAsciiHexDigit) = true
  · rw [if_pos h3] at h; exact absurd h (by simp)
  rw [if_neg h3] at h
  obtain rfl : fid = ⟨strToLower s⟩ := by
    injection h with h'
    exact h'.symm
  have hall : ∀ c ∈ s.data, isAsciiHexDigit c = true := by
    have h3' : s.data.all isAsciiHexDigit = true := by simpa using h3
    exact List.all_eq_true.mp h3'
  have hascii : ∀ c ∈ s.data, c.toNat < 128 :=
    fun c hc => toNat_lt_of_isAsciiHexDigit (hall c hc)
  have hones : ∀ c ∈ s.data, c.utf8Size = 1 :=
    fun c hc => utf8Size_eq_one_of_toNat_lt (hascii c hc)
  have hlen : s.data.length = 40 := by
    have hsum := sum_map_utf8_of_ones hones
    have h2' : utf8Len s = 40 := by omega
    unfold utf8Len at h2'
    omega
  have hdata : (FileId.mk (strToLower s)).val.data = s.data.map charToLower := rfl
  have hvalid : ValidId (FileId.mk (strToLower s)).val := by
    constructor
    · rw [hdata, List.length_map]; omega
    · intro c hc
      rw [hdata] at hc
      obtain ⟨c0, hc0, rfl⟩ := List.mem_map.mp hc
      exact utf8Size_eq_one_of_toNat_lt (charToLower_toNat_lt (hascii c0 hc0))
  refine ⟨hvalid, takeBytes_two_of_validId hvalid, ?_⟩
  intro w dom rp fl md b o
  rw [extract_single_eq_of_validId w _ b o hvalid]
  split
  · simp
  · split
    · simp
    · split <;> simp

/-- C8: on a record whose content id satisfies the `FileId` invariant, the
pipeline skips exactly when no blob exists at
`backupDir / (first two characters of the id) / id`, and reports an
extraction exactly when that blob exists, the parent directories of
`outputDir / relativePath` are created, and the bytes are copied from that
source location to that destination location. -/
theorem extract_single_source_dest (w : World) (f : File) (b o : String)
    (h : ValidId f.fileId) :
    (extract_single_file w f b o = some (.ok false) ↔
       w.blobExists (sourcePathOf b f) = false) ∧
    (extract_single_file w f b o = some (.ok true) ↔
       w.blobExists (sourcePathOf b f) = true ∧ w.mkdirOk (destPathOf o f) = true ∧
       w.copyOk (sourcePathOf b f) (destPathOf o f) = true) := by
  rw [extract_single_eq_of_validId w f b o h]
  by_cases hb : w.blobExists (sourcePathOf b f) <;>
    by_cases hm : w.mkdirOk (destPathOf o f) <;>
      by_cases hc : w.copyOk (sourcePathOf b f) (destPathOf o f) <;>
        simp [hb, hm, hc]

theorem processFiles_spec (w : World) (b o : String) (files : List File)
    (r : ExtractResult) (h : ∀ f ∈ files, extract_single_file w f b o ≠ none) :
    processFiles w b o files r = some
      { extracted_count := r.extracted_count +
          files.countP (fun f => isExtracted (extract_single_file w f b o)),
        skipped_count := r.skipped_count +
          files.countP (fun f => isSkipped (extract_single_file w f b o)),
        errors := r.errors ++
          files.filterMap (fun f => errEntry f (extract_single_file w f b o)) } := by
  revert h
  induction files generalizing r with
  | nil => intro h; simp [processFiles]
  | cons f t ih =>
    intro h
    have hf := h f (List.mem_cons_self ..)
    have ht : ∀ g ∈ t, extract_single_file w g b o ≠ none :=
      fun g hg => h g (List.mem_cons_of_mem f hg)
    cases hv : extract_single_file w f b o with
    | none => exact absurd hv hf
    | some v =>
      cases v with
      | ok bv =>
        cases bv
        · simp only [processFiles, hv]
          rw [ih _ ht]
          simp only [Option.some.injEq, ExtractResult.mk.injEq]
          refine ⟨?_, ?_, ?_⟩
          · simp [List.countP_cons, hv, isExtracted]
          · simp [List.countP_cons, hv, isSkipped]; omega
          · simp [List.filterMap_cons, hv, errEntry]
        · simp only [processFiles, hv]
          rw [ih _ ht]
          simp only [Option.some.injEq, ExtractResult.mk.injEq]
          refine ⟨?_, ?_, ?_⟩
          · simp [List.countP_cons, hv, isExtracted]; omega
          · simp [List.countP_cons, hv, isSkipped]
          · simp [List.filterMap_cons, hv, errEntry]
      | error e =>
        simp only [processFiles, hv]
        rw [ih _ ht]
        simp only [Option.some.injEq, ExtractResult.mk.injEq]
        refine ⟨?_, ?_, ?_⟩
        · simp [List.countP_cons, hv, isExtracted]
        · simp [List.countP_cons, hv, isSkipped]
        · simp [List.filterMap_cons, hv, errEntry]

theorem countP_partition_length {α : Type} (p q : α → Bool) (l : List α)
    (h : ∀ a ∈ l, (p a = true ∧ q a = false) ∨ (p a = false ∧ q a = true)) :
    l.countP p + l.countP q = l.length := by
  induction l with
  | nil => simp
  | cons a t ih =>
    have ha := h a (List.mem_cons_self ..)
    have ht := fun x hx => h x (List.mem_cons_of_mem a hx)
    have ih' := ih ht
    rcases ha with ⟨hp, hq⟩ | ⟨hp, hq⟩ <;>
      simp [List.countP_cons, hp, hq] <;> omega

/-- C5: when every matched record has a valid content id and no directory
creation or copy fails, extraction reports exactly the records with an
existing source blob as extracted, exactly the others as skipped, and no
errors; the two counters add up to the number of matched records. -/
theorem extract_counts (w : World) (params : SearchParams) (b o : String)
    (q : FileQuery) (files : List File)
    (hq : params.build_query = .ok q)
    (hs : w.repoSearch q = .ok files)
    (hroot : w.mkdirOk o = true)
    (hid : ∀ f ∈ files, ValidId f.fileId)
    (hio : ∀ f ∈ files, w.mkdirOk (destPathOf o f) = true ∧
      w.copyOk (sourcePathOf b f) (destPathOf o f) = true) :
    ExtractService.extract w params b o = some (.ok
      { extracted_count := files.countP (fun f => w.blobExists (sourcePathOf b f)),
        skipped_count := files.countP (fun f => !(w.blobExists (sourcePathOf b f))),
        errors := [] }) ∧
    files.countP (fun f => w.blobExists (sourcePathOf b f)) +
      files.countP (fun f => !(w.blobExists (sourcePathOf b f))) = files.length := by
  have hsingle : ∀ f ∈ files, extract_single_file w f b o =
      (if w.blobExists (sourcePathOf b f) then some (.ok true) else some (.ok false)) := by
    intro f hf
    rw [extract_single_eq_of_validId w f b o (hid f hf)]
    rcases hio f hf with ⟨hm, hc⟩
    by_cases hb : w.blobExists (sourcePathOf b f) <;> simp [hb, hm, hc]
  constructor
  · by_cases hemp : files.isEmpty
    · have hnil : files = [] := List.isEmpty_iff.mp hemp
      subst hnil
      simp [ExtractService.extract, hq, hs]
    · have hne : files.isEmpty = false := by simpa using hemp
      simp only [ExtractService.extract, hq, hs, hne, Bool.false_eq_true, if_false,
        hroot, Bool.not_true, if_true]
      rw [processFiles_spec w b o files ⟨0, 0, []⟩
        (fun f hf => by rw [hsingle f hf]; split <;> simp)]
      simp only [Option.map_some', Option.some.injEq, Except.ok.injEq,
        ExtractResult.mk.injEq, Nat.zero_add, List.nil_append]
      refine ⟨?_, ?_, ?_⟩
      · refine List.countP_congr ?_
        intro f hf
        rw [hsingle f hf]
        by_cases hb : w.blobExists (sourcePathOf b f) <;> simp [hb, isExtracted]
      · refine List.countP_congr ?_
        intro f hf
        rw [hsingle f hf]
        by_cases hb : w.blobExists (sourcePathOf b f) <;> simp [hb, isSkipped]
      · refine List.filterMap_eq_nil_iff.mpr ?_
        intro f hf
        rw [hsingle f hf]
        split <;> simp [errEntry]
  · refine countP_partition_length _ _ files ?_
    intro f _
    by_cases hb : w.blobExists (sourcePathOf b f) <;> simp [hb]

/-- C6: when one matched record fails at the per-file stage and every other
matched record completes (extracted or skipped), the run still returns an
outcome: the error list holds exactly one entry carrying the failing
record's content id, relative path and message, and the extracted and
skipped counters account for all the other records. -/
theorem extract_isolates_failure (w : World) (params : SearchParams) (b o : String)
    (q : FileQuery) (l1 l2 : List File) (f : File) (e : String)
    (hq : params.build_query = .ok q)
    (hs : w.repoSearch q = .ok (l1 ++ f :: l2))
    (hroot : w.mkdirOk o = true)
    (hfail : extract_single_file w f b o = some (.error e))
    (hok : ∀ g ∈ l1 ++ l2, ∃ x, extract_single_file w g b o = some (.ok x)) :
    ∃ r : ExtractResult,
      ExtractService.extract w params b o = some (.ok r) ∧
      r.errors = [⟨f.fileId, f.relativePath, e⟩] ∧
      r.extracted_count + r.skipped_count = l1.length + l2.length := by
  have hnn : ∀ g ∈ l1 ++ f :: l2, extract_single_file w g b o ≠ none := by
    intro g hg
    rcases List.mem_append.mp hg with h1 | h1
    · obtain ⟨x, hx⟩ := hok g (List.mem_append.mpr (Or.inl h1)); simp [hx]
    · rcases List.mem_cons.mp h1 with rfl | h2
      · simp [hfail]
      · obtain ⟨x, hx⟩ := hok g (List.mem_append.mpr (Or.inr h2)); simp [hx]
  have hne : (l1 ++ f :: l2).isEmpty = false := by simp
  simp only [ExtractService.extract, hq, hs, hne, Bool.false_eq_true, if_false,
    hroot, Bool.not_true, if_true]
  rw [processFiles_spec w b o _ ⟨0, 0, []⟩ hnn]
  simp only [Option.map_some']
  refine ⟨_, rfl, ?_, ?_⟩
  · show ([] : List ExtractError) ++
      (l1 ++ f :: l2).filterMap (fun g => errEntry g (extract_single_file w g b o)) =
      [⟨f.fileId, f.relativePath, e⟩]
    have e1 : l1.filterMap (fun g => errEntry g (extract_single_file w g b o)) = [] := by
      refine List.filterMap_eq_nil_iff.mpr ?_
      intro g hg
      obtain ⟨x, hx⟩ := hok g (List.mem_append.mpr (Or.inl hg))
      rw [hx]; cases x <;> rfl
    have e2 : l2.filterMap (fun g => errEntry g (extract_single_file w g b o)) = [] := by
      refine List.filterMap_eq_nil_iff.mpr ?_
      intro g hg
      obtain ⟨x, hx⟩ := hok g (List.mem_append.mpr (Or.inr hg))
      rw [hx]; cases x <;> rfl
    rw [List.nil_append, List.filterMap_append, List.filterMap_cons, e1, e2, hfail]
    simp [errEntry]
  · show (0 + (l1 ++ f :: l2).countP (fun g => isExtracted (extract_single_file w g b o))) +
      (0 + (l1 ++ f :: l2).countP (fun g => isSkipped (extract_single_file w g b o))) =
      l1.length + l2.length
    have hf1 : isExtracted (extract_single_file w f b o) = false := by rw [hfail]; rfl
    have hf2 : isSkipped (extract_single_file w f b o) = false := by rw [hfail]; rfl
    have hpart : ∀ (l : List File), (∀ g ∈ l, g ∈ l1 ++ l2) →
        l.countP (fun g => isExtracted (extract_single_file w g b o)) +
        l.countP (fun g => isSkipped (extract_single_file w g b o)) = l.length := by
      intro l hl
      refine countP_partition_length _ _ l ?_
      intro g hg
      obtain ⟨x, hx⟩ := hok g (hl g hg)
      rw [hx]; cases x
      · exact Or.inr ⟨rfl, rfl⟩
      · exact Or.inl ⟨rfl, rfl⟩
    have c1 := hpart l1 (fun g hg => List.mem_append.mpr (Or.inl hg))
    have c2 := hpart l2 (fun g hg => List.mem_append.mpr (Or.inr hg))
    simp only [List.countP_append, List.countP_cons, hf1, hf2]
    simp only [Bool.false_eq_true, if_false]
    omega

/-- C7 (amended): the pipeline call returns an error iff building the query
fails, or the index search fails, or the search matched at least one record
and the destination root cannot be created; a search matching zero records
returns the all-zero outcome before the destination root is even touched. -/
theorem extract_failure_characterization (w : World) (params : SearchParams)
    (b o : String) :
    ((∃ e, ExtractService.extract w params b o = some (.error e)) ↔
       (∃ e, params.build_query = .error e) ∨
       (∃ q e, params.build_query = .ok q ∧ w.repoSearch q = .error e) ∨
       (∃ q files, params.build_query = .ok q ∧ w.repoSearch q = .ok files ∧
          files ≠ [] ∧ w.mkdirOk o = false)) ∧
    (∀ q, params.build_query = .ok q → w.repoSearch q = .ok [] →
       ExtractService.extract w params b o = some (.ok ⟨0, 0, []⟩)) := by
  constructor
  · cases hbq : params.build_query with
    | error e =>
      have hx : ExtractService.extract w params b o = some (.error e) := by
        simp [ExtractService.extract, hbq]
      rw [hx]
      constructor
      · intro _; exact Or.inl ⟨e, rfl⟩
      · intro _; exact ⟨e, rfl⟩
    | ok q =>
      cases hrs : w.repoSearch q with
      | error e =>
        have hx : ExtractService.extract w params b o =
            some (.error ("Failed to search for files: " ++ e)) := by
          simp [ExtractService.extract, hbq, hrs]
        rw [hx]
        constructor
        · intro _; exact Or.inr (Or.inl ⟨q, e, rfl, hrs⟩)
        · intro _; exact ⟨_, rfl⟩
      | ok files =>
        by_cases hemp : files.isEmpty = true
        · obtain rfl : files = [] := List.isEmpty_iff.mp hemp
          have hx : ExtractService.extract w params b o = some (.ok ⟨0, 0, []⟩) := by
            simp [ExtractService.extract, hbq, hrs]
          rw [hx]
          constructor
          · rintro ⟨e, he⟩; exact absurd he (by simp)
          · rintro (⟨e, he⟩ | ⟨q', e, hq', hrs'⟩ | ⟨q', files', hq', hrs', hne, -⟩)
            · exact absurd he (by simp)
            · obtain rfl : q = q' := by injection hq'
              rw [hrs] at hrs'; exact absurd hrs' (by simp)
            · obtain rfl : q = q' := by injection hq'
              rw [hrs] at hrs'
              obtain rfl : ([] : List File) = files' := by injection hrs'
              exact absurd rfl hne
        · have hne2 : files.isEmpty = false := by simpa using hemp
          by_cases hmk : w.mkdirOk o = true
          · have hx : ExtractService.extract w params b o =
                Option.map Except.ok (processFiles w b o files ⟨0, 0, []⟩) := by
              simp [ExtractService.extract, hbq, hrs, hne2, hmk]
            rw [hx]
            constructor
            · rintro ⟨e, he⟩
              exfalso
              cases hp : processFiles w b o files ⟨0, 0, []⟩ with
              | none => rw [hp] at he; exact absurd he (by simp)
              | some r => rw [hp] at he; simp at he
            · rintro (⟨e, he⟩ | ⟨q', e, hq', hrs'⟩ | ⟨q', files', hq', hrs', -, hmk'⟩)
              · exact absurd he (by simp)
              · obtain rfl : q = q' := by injection hq'
                rw [hrs] at hrs'; exact absurd hrs' (by simp)
              · exact absurd hmk' (by simp [hmk])
          · have hmk2 : w.mkdirOk o = false := by simpa using hmk
            have hx : ExtractService.extract w params b o =
                some (.error ("Failed to create output directory: " ++ o)) := by
              simp [ExtractService.extract, hbq, hrs, hne2, hmk2]
            rw [hx]
            constructor
            · intro _
              refine Or.inr (Or.inr ⟨q, files, rfl, hrs, ?_, hmk2⟩)
              intro hnil
              rw [hnil] at hne2
              simp at hne2
            · intro _; exact ⟨_, rfl⟩
  · intro q hq hval
    simp [ExtractService.extract, hq, hval]

/-- Content id of a sample record: 40 hex digits. -/
def hexA : String := "aa00000000000000000000000000000000000000"

/-- Content id of a second sample record: 40 hex digits. -/
def hexB : String := "bb00000000000000000000000000000000000000"

/-- Sample record used by the concrete witnesses. -/
def fileA : File := ⟨hexA, "app.notes", "Notes/b.txt", 0, []⟩

/-- Second sample record used by the concrete witnesses. -/
def fileB : File := ⟨hexB, "app.photos", "Pictures/a.jpg", 0, []⟩

/-- Sample flat filters: one present filter. -/
def paramsOne : SearchParams := ⟨some "app", none, none, none, false⟩

/-- A world where the index matches `fileA` and `fileB`, only `fileA`'s
source blob exists, and all directory creations and copies succeed. -/
def worldCounts : World :=
  ⟨fun _ => .ok [fileA, fileB],
   fun s => s == sourcePathOf "backup" fileA,
   fun _ => true, fun _ _ => true⟩

/-- A world where the index matches `fileA` and `fileB`, only `fileB`'s
source blob exists, and creating the parent directories of `fileB`'s
destination fails while every other operation succeeds. -/
def worldFail : World :=
  ⟨fun _ => .ok [fileA, fileB],
   fun s => s == sourcePathOf "backup" fileB,
   fun s => !(s == destPathOf "out" fileB),
   fun _ _ => true⟩

/-- A world with an empty index where every filesystem operation succeeds. -/
def worldAll : World :=
  ⟨fun _ => .ok [], fun _ => true, fun _ => true, fun _ _ => true⟩

/-- A world with an empty index where no filesystem operation succeeds. -/
def worldNoRoot : World :=
  ⟨fun _ => .ok [], fun _ => false, fun _ => false, fun _ _ => false⟩

set_option maxRecDepth 8192 in
/-- Witness for `extract_counts`: two matched records, one present blob —
one extracted, one skipped, no errors. -/
theorem extract_counts_use :
    ExtractService.extract worldCounts paramsOne "backup" "out" =
      some (.ok ⟨1, 1, []⟩) := by
  have h := (extract_counts worldCounts paramsOne "backup" "out"
    (.basic (.domainExact "app")) [fileA, fileB] (by decide) rfl rfl
    (by decide) (by decide)).1
  rw [h]
  decide

set_option maxRecDepth 8192 in
/-- Witness for `extract_isolates_failure`: `fileA` is skipped, `fileB`
fails at directory creation; the batch still completes. -/
theorem extract_isolates_failure_use :
    ∃ r : ExtractResult,
      ExtractService.extract worldFail paramsOne "backup" "out" = some (.ok r) ∧
      r.errors = [⟨fileB.fileId, fileB.relativePath,
        "Failed to create parent directory for " ++ destPathOf "out" fileB⟩] ∧
      r.extracted_count + r.skipped_count = [fileA].length + ([] : List File).length :=
  extract_isolates_failure worldFail paramsOne "backup" "out"
    (.basic (.domainExact "app")) [fileA] [] fileB
    ("Failed to create parent directory for " ++ destPathOf "out" fileB)
    (by decide) rfl rfl (by decide) (by decide)

/-- Counterexample to C7 as stated: with an index search matching zero
records and a destination root that cannot be created, the call still
succeeds with the zero outcome — it returns before attempting to create
the destination root, although the root "cannot be created". -/
theorem extract_ok_despite_uncreatable_root :
    ExtractService.extract worldNoRoot paramsOne "backup" "out" =
      some (.ok ⟨0, 0, []⟩) ∧
    worldNoRoot.mkdirOk "out" = false :=
  ⟨by decide, rfl⟩

/-- Witness for `extract_failure_characterization`: the zero-match case. -/
theorem extract_failure_characterization_use :
    ExtractService.extract worldAll paramsOne "backup" "out" =
      some (.ok ⟨0, 0, []⟩) :=
  (extract_failure_characterization worldAll paramsOne "backup" "out").2
    (.basic (.domainExact "app")) (by decide) rfl

set_option maxRecDepth 8192 in
/-- Witness for `extract_single_source_dest`: with the blob present and
all operations succeeding, the record is extracted. -/
theorem extract_single_source_dest_use :
    extract_single_file worldAll fileA "backup" "out" = some (.ok true) :=
  (extract_single_source_dest worldAll fileA "backup" "out" (by decide)).2.mpr
    ⟨rfl, rfl, rfl⟩

set_option maxRecDepth 8192 in
/-- Witness for `fileId_fanout_safe` at a concrete uppercase 40-hex-digit
input. -/
theorem fileId_fanout_safe_use :
    takeBytes 2 (FileId.mk hexA).val.data =
      some ((FileId.mk hexA).val.data.take 2) ∧
    extract_single_file worldAll ⟨(FileId.mk hexA).val, "d", "p", 0, []⟩ "b" "o" ≠
      none := by
  have h := fileId_fanout_safe "AA00000000000000000000000000000000000000"
    ⟨hexA⟩ (by decide)
  exact ⟨h.2.1, h.2.2 worldAll "d" "p" 0 [] "b" "o"⟩

end Idig
